import Mathlib

/-!
# RocksDBLogStoreBase: shard facade of the local log store

A shallow embedding of `logdevice/server/locallogstore/RocksDBLogStoreBase.cpp`.

* The store's member variables touched by the modelled methods are the fields of `Store`.
* Everything the methods call outside this translation unit (the engine's `Flush`, the
  writer's `syncWAL`, the clock, `shouldStallLowPriWrites`, the snapshot key format, the
  snapshot callback) is a parameter, and so are the stores of other threads to the atomic
  stall deadline.
* Every method returns, next to its C++ return value, the list of outside calls it issued,
  in program order, so that "calls X before Y" and "never calls X" are statements about
  that list.
-/

namespace RocksDBLogStoreBase

/-! ## Engine-side types -/

/-- Status of an engine call (`rocksdb::Status`): only the code is observed, and code `0`
is `kOk`. -/
structure Status where
  code : Nat
deriving DecidableEq, Repr

/-- The predicate `rocksdb::Status::ok()`. -/
def Status.ok (s : Status) : Bool := s.code == 0

/-- The ok status, `rocksdb::Status::OK()`. -/
def Status.OK : Status := ⟨0⟩

/-- The options of a flush, `rocksdb::FlushOptions`; `flushAllMemtables` sets only `wait`. -/
structure FlushOptions where
  wait : Bool
deriving DecidableEq, Repr

/-- The error codes of `logdevice::E` that can be stored in `err`; this file stores only
`LOCAL_LOG_STORE_WRITE`. -/
inductive E where
  | OK
  | LOCAL_LOG_STORE_WRITE
  | LOCAL_LOG_STORE_READ
  | INTERNAL
deriving DecidableEq, Repr

/-- Modelled from the spec: the enum `Durability` is declared in a header that is not part
of the sources. Section 4.6 gives it as an ordered enum `MEMORY, ASYNC_WRITE, SYNC_WRITE`
(in that order); `rank` is the position in that order and `<=` compares ranks, as the
built-in comparison of a C++ enum class does. -/
inductive Durability where
  | MEMORY
  | ASYNC_WRITE
  | SYNC_WRITE
deriving DecidableEq, Repr

/-- Position of a durability level in the enum's declaration order. -/
def Durability.rank : Durability → Nat
  | .MEMORY => 0
  | .ASYNC_WRITE => 1
  | .SYNC_WRITE => 2

instance : LE Durability := ⟨fun a b => a.rank ≤ b.rank⟩

instance (a b : Durability) : Decidable (a ≤ b) :=
  inferInstanceAs (Decidable (a.rank ≤ b.rank))

/-! ## The store and its collaborators -/

/-- The member variables of `RocksDBLogStoreBase` (and the thread-local `err`) that `sync`,
`flushAllMemtables` and `syncWAL` read or write. `db` is the state of the engine behind
`db_`; `failed_safe_log_stores` is this shard's fail-safe statistic. The stall-control
methods touch only `dont_stall_until_` and carry that value directly. -/
structure Store (ε : Type) where
  db : ε
  fail_safe_mode_ : Bool
  failed_safe_log_stores : Nat
  err : E

/-- The collaborators reached from `sync`, `flushAllMemtables` and `syncWAL`.

* `Flush` is `db_->Flush(options)`: the engine works on its own state.
* `writer_syncWAL` is `writer_->syncWAL()`. The writer is constructed with a pointer to the
  store (`new RocksDBWriter(this, ...)`), so it may change any part of the store.
* `flush_wait_default` is the default argument of `flushAllMemtables(bool wait)`, declared
  in the header. -/
structure Collaborators (ε : Type) where
  Flush : FlushOptions → ε → Status × ε
  writer_syncWAL : Store ε → Status × Store ε
  flush_wait_default : Bool

/-- A call that leaves `RocksDBLogStoreBase.cpp`. -/
inductive Call where
  | Flush (options : FlushOptions)
  | writer_syncWAL
  | enterFailSafeIfFailed (status : Status) (context : String)
deriving DecidableEq, Repr

/-- What a modelled `int` method leaves behind: its return value, the store afterwards and
the outside calls it issued, oldest first. -/
structure Ret (ε : Type) where
  rv : Int
  store : Store ε
  calls : List Call

/-- Modelled from the spec: `enterFailSafeMode` is defined in the header, which is not part
of the sources. Section 4.4: idempotent; the first invocation sets the fail-safe flag and
increments the fail-safe statistic (the one the destructor decrements). -/
def enterFailSafeMode {ε : Type} (s : Store ε) : Store ε :=
  if s.fail_safe_mode_ then s
  else { s with fail_safe_mode_ := true,
                failed_safe_log_stores := s.failed_safe_log_stores + 1 }

/-- Modelled from the spec: `enterFailSafeIfFailed` is defined in the header, which is not
part of the sources. Section 4.4 and section 7: an engine status that is not ok puts the
shard in fail-safe mode; an ok status changes nothing. Returns whether it did. -/
def enterFailSafeIfFailed {ε : Type} (status : Status) (s : Store ε) : Bool × Store ε :=
  if status.ok then (false, s) else (true, enterFailSafeMode s)

/-- The method `RocksDBLogStoreBase::flushAllMemtables(bool wait)`. -/
def flushAllMemtables {ε : Type} (c : Collaborators ε) (wait : Bool) (s : Store ε) : Ret ε :=
  let options : FlushOptions := { wait := wait }
  let r := c.Flush options s.db
  let status := r.1
  let s1 : Store ε := { s with db := r.2 }
  if !status.ok then
    let s2 := (enterFailSafeIfFailed status s1).2
    { rv := -1
      store := { s2 with err := E.LOCAL_LOG_STORE_WRITE }
      calls := [Call.Flush options, Call.enterFailSafeIfFailed status "Flush()"] }
  else
    { rv := 0, store := s1, calls := [Call.Flush options] }

/-- The method `RocksDBLogStoreBase::syncWAL()`. -/
def syncWAL {ε : Type} (c : Collaborators ε) (s : Store ε) : Ret ε :=
  let r := c.writer_syncWAL s
  let status := r.1
  if !status.ok then
    { rv := -1
      store := { r.2 with err := E.LOCAL_LOG_STORE_WRITE }
      calls := [Call.writer_syncWAL] }
  else
    { rv := 0, store := r.2, calls := [Call.writer_syncWAL] }

/-- Modelled from the spec: `RocksDBWriter::syncWAL` is defined in `RocksDBWriter.cpp`, which
is not part of the sources (only the call `writer_->syncWAL()` is). Sections 4.4 and 7: the
operation that receives a status from the engine, here from the engine's WAL-sync primitive
`SyncWAL`, puts the shard in fail-safe mode when that status is not ok, does not retry, and
hands the status to its caller. The writer reaches the store through the pointer it is
constructed with. -/
def RocksDBWriter.syncWAL {ε : Type} (SyncWAL : ε → Status × ε) (s : Store ε) :
    Status × Store ε :=
  let r := SyncWAL s.db
  (r.1, (enterFailSafeIfFailed r.1 { s with db := r.2 }).2)

/-- The method `RocksDBLogStoreBase::sync(Durability)`. The leading `ld_check` (the store is
not read-only) is a debug assertion on the settings and has no effect on the result. The
`&&` and the early `return -1` are kept: `syncWAL` runs only when
`durability <= ASYNC_WRITE`, and nothing runs after a failed `syncWAL`. -/
def sync {ε : Type} (c : Collaborators ε) (durability : Durability) (s : Store ε) : Ret ε :=
  let w : Ret ε :=
    if durability ≤ Durability.ASYNC_WRITE then syncWAL c s
    else { rv := 0, store := s, calls := [] }
  if decide (durability ≤ Durability.ASYNC_WRITE) && decide (w.rv ≠ 0) then
    { rv := -1, store := w.store, calls := w.calls }
  else if durability ≤ Durability.MEMORY then
    let f := flushAllMemtables c c.flush_wait_default w.store
    { rv := f.rv, store := f.store, calls := w.calls ++ f.calls }
  else
    { rv := 0, store := w.store, calls := w.calls }

/-! ## Iterators and column families -/

/-- A key or a value as the engine sees it (`rocksdb::Slice`): a finite sequence of bytes. -/
abbrev Slice := List Nat

/-- The bytes of a C string literal, as `rocksdb::Slice(const char*)` takes them. -/
def Slice.ofString (s : String) : Slice := s.toList.map Char.toNat

/-- The three-way comparison `rocksdb::Slice::compare`: bytewise over the common length,
then the shorter slice first. Negative, zero or positive. -/
def Slice.compare : Slice → Slice → Int
  | [], [] => 0
  | [], _ :: _ => -1
  | _ :: _, [] => 1
  | a :: as, b :: bs => if a < b then -1 else if b < a then 1 else Slice.compare as bs

/-- The constant `RocksDBLogStoreBase::OLD_SCHEMA_VERSION_KEY`. -/
def OLD_SCHEMA_VERSION_KEY : Slice := Slice.ofString "schema_version"

/-- The constant `RocksDBLogStoreBase::NEW_SCHEMA_VERSION_KEY`. -/
def NEW_SCHEMA_VERSION_KEY : Slice := Slice.ofString ".schema_version"

/-- A column family as an iterator reads it: its key/value rows in the order of the
family's (bytewise) comparator, and the statuses the engine reports for the successive
positioning operations (`Seek`, `Next`) of an iterator over it; once `faults` is used up
every further operation succeeds, so `faults = []` is a family that never reports an
error. -/
structure ColumnFamilyHandle where
  rows : List (Slice × Slice)
  faults : List Status

/-- The iterator `RocksDBIterator`, reduced to what a forward scan observes: the rows at and
after the current position, the current status and the statuses of the operations still to
come. -/
structure RocksDBIterator where
  rows : List (Slice × Slice)
  st : Status
  faults : List Status

/-- The method `RocksDBLogStoreBase::newIterator`, not yet positioned. -/
def newIterator (cf : ColumnFamilyHandle) : RocksDBIterator :=
  { rows := cf.rows, st := Status.OK, faults := cf.faults }

/-- The accessor `status()`. -/
def RocksDBIterator.status (it : RocksDBIterator) : Status := it.st

/-- The accessor `Valid()`: positioned on a row, which an iterator in an error state never
is. -/
def RocksDBIterator.Valid (it : RocksDBIterator) : Bool := it.st.ok && !it.rows.isEmpty

/-- The accessor `key()`; the callers read it only when `Valid()`. -/
def RocksDBIterator.key (it : RocksDBIterator) : Slice :=
  match it.rows with
  | [] => []
  | r :: _ => r.1

/-- The accessor `value()`; the callers read it only when `Valid()`. -/
def RocksDBIterator.value (it : RocksDBIterator) : Slice :=
  match it.rows with
  | [] => []
  | r :: _ => r.2

/-- The operation `Seek(target)`: position on the first row whose key is not below `target`;
the status is the one the engine reports for this operation. -/
def RocksDBIterator.Seek (target : Slice) (it : RocksDBIterator) : RocksDBIterator :=
  { rows := it.rows.dropWhile (fun r => decide (Slice.compare r.1 target < 0))
    st := it.faults.headD Status.OK
    faults := it.faults.tail }

/-- The operation `Next()`: move one row forward; the status is the one the engine reports
for this operation. -/
def RocksDBIterator.Next (it : RocksDBIterator) : RocksDBIterator :=
  { rows := it.rows.tail
    st := it.faults.headD Status.OK
    faults := it.faults.tail }

/-- Writing one row into a column family (`Put`): the row takes its place in key order and
replaces a row with the same key. -/
def putRow (k v : Slice) : List (Slice × Slice) → List (Slice × Slice)
  | [] => [(k, v)]
  | r :: rs =>
    if Slice.compare k r.1 < 0 then (k, v) :: r :: rs
    else if Slice.compare k r.1 = 0 then (k, v) :: rs
    else r :: putRow k v rs

/-- The column family after `Put(k, v)`. -/
def ColumnFamilyHandle.put (k v : Slice) (cf : ColumnFamilyHandle) : ColumnFamilyHandle :=
  { cf with rows := putRow k v cf.rows }

/-- The iterator of `RocksDBLogStoreBase::isCFEmpty` as it stands when the method reaches
its final checks: after `Seek` to the empty slice and, when the iterator is healthy and
positioned on one of the two schema-version keys, one `Next`. One `if`, as in the source:
at most one leading schema-version key is stepped over. -/
def isCFEmptyIterator (cf : ColumnFamilyHandle) : RocksDBIterator :=
  let it0 := (newIterator cf).Seek []
  if it0.status.ok && it0.Valid &&
      (decide (Slice.compare it0.key OLD_SCHEMA_VERSION_KEY = 0) ||
       decide (Slice.compare it0.key NEW_SCHEMA_VERSION_KEY = 0)) then
    it0.Next
  else it0

/-- The method `RocksDBLogStoreBase::isCFEmpty`: `-1` on a read error, else `!it.Valid()`
as an `int`. -/
def isCFEmpty (cf : ColumnFamilyHandle) : Int :=
  let it := isCFEmptyIterator cf
  if !it.status.ok then -1
  else if it.Valid then 0 else 1

/-- Whether a key is one of the two schema-version keys. -/
def isSchemaVersionKey (k : Slice) : Bool :=
  decide (k = OLD_SCHEMA_VERSION_KEY) || decide (k = NEW_SCHEMA_VERSION_KEY)

/-! ## Snapshot blobs -/

/-- The parts of `RocksDBKeyFormat::LogSnapshotBlobKey` that `readAllLogSnapshotBlobsImpl`
uses; the key format is declared outside the sources, so it is a parameter. `encode` gives
the bytes of a key object, `valid` and `getLogID` are the static methods of the same
names, `LOGID_INVALID` is the constant used for the seek target. -/
structure LogSnapshotBlobKey (τ : Type) where
  encode : τ → Nat → Slice
  valid : τ → Slice → Bool
  getLogID : Slice → Nat
  LOGID_INVALID : Nat

/-- One invocation of the snapshot callback: its two arguments and what it returned. -/
structure BlobCall where
  logid : Nat
  blob : Slice
  rv : Int
deriving DecidableEq, Repr

/-- What `readAllLogSnapshotBlobsImpl` leaves behind: its return value, the callback's state
afterwards, the callback invocations in order and the iterator's status at the return. -/
structure BlobRet (σ : Type) where
  rv : Int
  cbState : σ
  invocations : List BlobCall
  final : Status

/-- The `for` loop of `readAllLogSnapshotBlobsImpl` together with the final `return`,
started with the iterator on `rows` with status `st` and upcoming statuses `faults`. The
callback is a `std::function`, so it carries a state `σ`. Each recursive call is the loop
after `it.Next()`. -/
def blobLoop {τ σ : Type} (fmt : LogSnapshotBlobKey τ) (snapshots_type : τ)
    (callback : σ → Nat → Slice → Int × σ) :
    List (Slice × Slice) → Status → List Status → σ → List BlobCall → BlobRet σ
  | [], st, _, s, acc =>
    { rv := if st.ok then 0 else -1, cbState := s, invocations := acc, final := st }
  | (k, v) :: rest, st, faults, s, acc =>
    if st.ok then
      if !fmt.valid snapshots_type k then
        { rv := 0, cbState := s, invocations := acc, final := st }
      else
        let logid := fmt.getLogID k
        let r := callback s logid v
        if r.1 ≠ 0 then
          { rv := -1, cbState := r.2, invocations := acc ++ [⟨logid, v, r.1⟩], final := st }
        else
          blobLoop fmt snapshots_type callback rest (faults.headD Status.OK) faults.tail r.2
            (acc ++ [⟨logid, v, r.1⟩])
    else
      { rv := -1, cbState := s, invocations := acc, final := st }

/-- The method `RocksDBLogStoreBase::readAllLogSnapshotBlobsImpl`. -/
def readAllLogSnapshotBlobsImpl {τ σ : Type} (fmt : LogSnapshotBlobKey τ) (snapshots_type : τ)
    (callback : σ → Nat → Slice → Int × σ) (s : σ) (snapshots_cf : ColumnFamilyHandle) :
    BlobRet σ :=
  let seek_target := fmt.encode snapshots_type fmt.LOGID_INVALID
  let it := (newIterator snapshots_cf).Seek seek_target
  blobLoop fmt snapshots_type callback it.rows it.status it.faults s []

/-- Running the callback again over a list of recorded invocations, from state `s`: the
state after the last one when every record carries the arguments' true return value, `none`
when some record does not. -/
def replayCallback {σ : Type} (callback : σ → Nat → Slice → Int × σ) :
    σ → List BlobCall → Option σ
  | s, [] => some s
  | s, c :: cs =>
    if (callback s c.logid c.blob).1 = c.rv then
      replayCallback callback (callback s c.logid c.blob).2 cs
    else none

/-! ## Stalling of low-priority writes -/

/-- The value `std::chrono::steady_clock::duration::max()` for the 64-bit signed tick count
of the steady clock. -/
def duration_max : Int := 2 ^ 63 - 1

/-- The value of a 64-bit signed tick count after an addition or subtraction: the
mathematical result reduced to the range from `-2^63` to `2^63 - 1`. -/
def wrap64 (x : Int) : Int := (x + 2 ^ 63) % 2 ^ 64 - 2 ^ 63

/-- The number of steady-clock ticks in a microsecond: the clock ticks in nanoseconds. -/
def ticks_per_microsecond : Int := 1000

/-- The count `std::chrono::duration_cast<std::chrono::microseconds>(d).count()` of a tick
count `d`: integer division, rounding toward zero. -/
def microseconds_count (d : Int) : Int := Int.tdiv d ticks_per_microsecond

/-- What one run of `stallLowPriWrite` meets from outside, each numbered from 0 within the
run: the readings of `std::chrono::steady_clock::now()`, the answers of the virtual
`shouldStallLowPriWrites()`, and the stores of other threads to the atomic
`dont_stall_until_`: `otherStores a = some v` says that, since this run's previous access
to `dont_stall_until_` and before its access number `a`, another thread stored `v`. A run
with no other thread at work has `otherStores a = none` throughout. -/
structure StallEnv where
  now : Nat → Int
  shouldStallLowPriWrites : Nat → Bool
  otherStores : Nat → Option Int

/-- What happens in a run of a stall-control method, in program order; `other_store` marks
a store of another thread to `dont_stall_until_`. -/
inductive StallEvent where
  | now (t : Int)
  | shouldStall (answer : Bool)
  | store (deadline : Int)
  | other_store (deadline : Int)
  | wait_for (timeout : Int)
  | stat_add (microseconds : Int)
  | notify_all
deriving DecidableEq, Repr

/-- The value of `dont_stall_until_` at this run's access number `a`, when it was `d` after
the previous access, with the event of another thread's store if there was one. -/
def StallEnv.arrive (env : StallEnv) (a : Nat) (d : Int) : Int × List StallEvent :=
  match env.otherStores a with
  | some v => (v, [StallEvent.other_store v])
  | none => (d, [])

/-- The method `RocksDBLogStoreBase::adviseUnstallingLowPriWrites`: the deadline afterwards
and the events. It takes `stall_cv_mutex_` only, never `stall_mutex_`. -/
def adviseUnstallingLowPriWrites (dont_stall_anymore : Bool) (dont_stall_until_ : Int) :
    Int × List StallEvent :=
  if dont_stall_anymore then
    (duration_max, [StallEvent.store duration_max, StallEvent.notify_all])
  else
    (dont_stall_until_, [StallEvent.notify_all])

/-- The `while` loop of `stallLowPriWrite`: `c` clock readings, `q` queries and `a`
accesses to `dont_stall_until_` have been made so far, and `d` is the value of
`dont_stall_until_` after the last access. `none` when the loop is still stalling after
`fuel` iterations. Each `cache_says_no_stall()` reads the clock and then loads
`dont_stall_until_`; the store after a false answer overwrites whatever is there. Tick
counts are 64-bit: the sum `now + stall_cache_ttl_` and the difference `t - stats_time`
are reduced by `wrap64`. -/
def stallLoop (env : StallEnv) (stall_cache_ttl_ : Int) :
    Nat → Nat → Nat → Nat → Int → Int → List StallEvent → Option (Int × List StallEvent)
  | 0, _, _, _, _, _, _ => none
  | fuel + 1, c, q, a, stats_time, d, ev =>
    let now := env.now c
    let d1 := env.arrive a d
    if now < d1.1 then
      some (d1.1, ev ++ [StallEvent.now now] ++ d1.2)
    else if !env.shouldStallLowPriWrites q then
      let now2 := env.now (c + 1)
      let d2 := env.arrive (a + 1) d1.1
      some (wrap64 (now2 + stall_cache_ttl_),
        ev ++ [StallEvent.now now] ++ d1.2 ++
          [StallEvent.shouldStall false, StallEvent.now now2] ++ d2.2 ++
          [StallEvent.store (wrap64 (now2 + stall_cache_ttl_))])
    else
      let now3 := env.now (c + 1)
      let d2 := env.arrive (a + 1) d1.1
      let waited : List StallEvent :=
        if now3 < d2.1 then [] else [StallEvent.wait_for stall_cache_ttl_]
      let t := env.now (c + 2)
      stallLoop env stall_cache_ttl_ fuel (c + 3) (q + 1) (a + 2) t d2.1
        (ev ++ [StallEvent.now now] ++ d1.2 ++
          [StallEvent.shouldStall true, StallEvent.now now3] ++ d2.2 ++ waited ++
          [StallEvent.now t, StallEvent.stat_add (microseconds_count (wrap64 (t - stats_time)))])

/-- The method `RocksDBLogStoreBase::stallLowPriWrite`: the value of `dont_stall_until_`
after the run's last access and the events, or `none` when the call has not returned after
`fuel` iterations of its loop. -/
def stallLowPriWrite (env : StallEnv) (stall_cache_ttl_ : Int) (fuel : Nat)
    (dont_stall_until_ : Int) : Option (Int × List StallEvent) :=
  let now := env.now 0
  let d0 := env.arrive 0 dont_stall_until_
  if now < d0.1 then
    some (d0.1, [StallEvent.now now] ++ d0.2)
  else
    let stats_time := env.now 1
    match stallLoop env stall_cache_ttl_ fuel 2 0 1 stats_time d0.1
        ([StallEvent.now now] ++ d0.2 ++ [StallEvent.now stats_time]) with
    | none => none
    | some (d, ev) => some (d, ev ++ [StallEvent.notify_all])

/-- A series of `stallLowPriWrite` calls, one after the other, each with its own
environment, `stall_cache_ttl_` and fuel: the deadline after the last one and the events of
each call. -/
def stallCalls : List (StallEnv × Int × Nat) → Int → Option (Int × List (List StallEvent))
  | [], d => some (d, [])
  | (env, ttl, fuel) :: more, d =>
    match stallLowPriWrite env ttl fuel d with
    | none => none
    | some (d1, ev) =>
      match stallCalls more d1 with
      | none => none
      | some (d2, evs) => some (d2, ev :: evs)

/-- The answer of the last `shouldStallLowPriWrites()` query among the events, if any. -/
def lastAnswer : List StallEvent → Option Bool
  | [] => none
  | e :: es =>
    match lastAnswer es with
    | some b => some b
    | none =>
      match e with
      | StallEvent.shouldStall b => some b
      | _ => none

/-- The last clock reading among the events, if any. -/
def lastNow : List StallEvent → Option Int
  | [] => none
  | e :: es =>
    match lastNow es with
    | some t => some t
    | none =>
      match e with
      | StallEvent.now t => some t
      | _ => none

/-! ## Concrete collaborators used to run the definitions -/

/-- An engine that counts its flushes and answers every `Flush` with status code
`flushCode`, behind a writer whose `syncWAL` answers with status code `walCode` and touches
nothing in the store. -/
def scriptedCollaborators (flushCode walCode : Nat) : Collaborators Nat :=
  { Flush := fun _ n => (⟨flushCode⟩, n + 1)
    writer_syncWAL := fun s => (⟨walCode⟩, s)
    flush_wait_default := true }

/-- A freshly opened store: not in fail-safe mode, no error recorded. -/
def freshStore : Store Nat :=
  { db := 0, fail_safe_mode_ := false, failed_safe_log_stores := 0, err := E.OK }

/-- A healthy family holding the old schema-version key and nothing else. -/
def schemaOnlyFamily : ColumnFamilyHandle :=
  { rows := [(OLD_SCHEMA_VERSION_KEY, [1])], faults := [] }

/-- A healthy family holding both schema-version keys, in key order, and nothing else. -/
def bothSchemaKeysFamily : ColumnFamilyHandle :=
  { rows := [(NEW_SCHEMA_VERSION_KEY, [2]), (OLD_SCHEMA_VERSION_KEY, [1])], faults := [] }

/-- A two-byte key format: the snapshot type, then the log id. -/
def pairKeyFormat : LogSnapshotBlobKey Nat :=
  { encode := fun t id => [t, id]
    valid := fun t k => decide (k.length = 2 ∧ k.head? = some t)
    getLogID := fun k => k.getD 1 0
    LOGID_INVALID := 0 }

/-- A healthy family with one blob of type 1, two of type 2 and one of type 3, in key
order. -/
def snapshotFamily : ColumnFamilyHandle :=
  { rows := [([1, 5], [50]), ([2, 3], [30]), ([2, 8], [80]), ([3, 1], [10])], faults := [] }

/-- A callback that appends its arguments to the list it keeps and always returns 0. -/
def recordingCallback : List (Nat × Slice) → Nat → Slice → Int × List (Nat × Slice) :=
  fun seen logid blob => (0, seen ++ [(logid, blob)])

/-- A callback that counts its invocations and returns 1 from its second invocation on. -/
def abortingCallback : Nat → Nat → Slice → Int × Nat :=
  fun n _ _ => (if n = 0 then 0 else 1, n + 1)

/-- A run with no other thread at work in which the clock reads 10, 1510, 3010, ... ticks
and `shouldStallLowPriWrites()` answers true once, then false. -/
def stallOnceEnv : StallEnv :=
  { now := fun n => 1500 * (n : Int) + 10
    shouldStallLowPriWrites := fun q => decide (q < 1)
    otherStores := fun _ => none }

/-- A run in which the clock reads 0, 1, 2, ..., the first answer is false, and the store
of `adviseUnstallingLowPriWrites(true)`, made by another thread, arrives after this run's
second load of `dont_stall_until_` and before its store (its access number 2). -/
def racingEnv : StallEnv :=
  { now := fun n => (n : Int)
    shouldStallLowPriWrites := fun _ => false
    otherStores := fun a => if a = 2 then some (adviseUnstallingLowPriWrites true 0).1 else none }

/-- An engine whose WAL sync fails with status code 5, behind the writer of the spec. -/
def failingWALCollaborators : Collaborators Nat :=
  { Flush := fun _ n => (Status.OK, n + 1)
    writer_syncWAL := RocksDBWriter.syncWAL (fun n => (⟨5⟩, n))
    flush_wait_default := true }

/-- The snapshot family of `snapshotFamily` on which the engine serves the seek and fails
the first `Next` with status code 5. -/
def failingNextFamily : ColumnFamilyHandle :=
  { rows := snapshotFamily.rows, faults := [Status.OK, ⟨5⟩] }

/-- The snapshot family of `snapshotFamily` on which the engine fails the seek with status
code 5. -/
def failingSeekSnapshotFamily : ColumnFamilyHandle :=
  { rows := snapshotFamily.rows, faults := [⟨5⟩] }

/-! ## Theorems: `flushAllMemtables`, `syncWAL`, `sync` -/

/-- The store after `syncWAL` differs from the store the writer left at most in `err`: the
fail-safe flag and its statistic are exactly what `writer_->syncWAL()` left. -/
theorem syncWAL_adds_no_escalation {ε : Type} (c : Collaborators ε) (s : Store ε) :
    (syncWAL c s).store.fail_safe_mode_ = (c.writer_syncWAL s).2.fail_safe_mode_ ∧
    (syncWAL c s).store.failed_safe_log_stores = (c.writer_syncWAL s).2.failed_safe_log_stores ∧
    (syncWAL c s).calls = [Call.writer_syncWAL] := by
  unfold syncWAL
  cases h : (c.writer_syncWAL s).1.ok <;> simp [h]

/-- The return value of `syncWAL` is `0` exactly when the writer's status is ok, and `-1`
otherwise. -/
theorem syncWAL_rv {ε : Type} (c : Collaborators ε) (s : Store ε) :
    (syncWAL c s).rv = if (c.writer_syncWAL s).1.ok then 0 else -1 := by
  unfold syncWAL
  cases h : (c.writer_syncWAL s).1.ok <;> simp [h]

/-- C2. For every engine and store, `flushAllMemtables(wait)` issues exactly one engine
`Flush`, with `options.wait = wait`. When the returned status is not ok, it calls
`enterFailSafeIfFailed` with that status (and nothing else after the flush), the store is in
fail-safe mode afterwards, `err` is `LOCAL_LOG_STORE_WRITE` and the result is `-1`. When the
status is ok, the result is `0` and the fail-safe flag and `err` are unchanged. -/
theorem flushAllMemtables_contract {ε : Type} (c : Collaborators ε) (wait : Bool)
    (s : Store ε) :
    ((flushAllMemtables c wait s).calls.filter
        (fun e => match e with | Call.Flush _ => true | _ => false)
      = [Call.Flush { wait := wait }]) ∧
    (flushAllMemtables c wait s).store.db = (c.Flush { wait := wait } s.db).2 ∧
    ((c.Flush { wait := wait } s.db).1.ok = false →
      (flushAllMemtables c wait s).calls
        = [Call.Flush { wait := wait },
           Call.enterFailSafeIfFailed (c.Flush { wait := wait } s.db).1 "Flush()"] ∧
      (flushAllMemtables c wait s).store.fail_safe_mode_ = true ∧
      (flushAllMemtables c wait s).store.err = E.LOCAL_LOG_STORE_WRITE ∧
      (flushAllMemtables c wait s).rv = -1) ∧
    ((c.Flush { wait := wait } s.db).1.ok = true →
      (flushAllMemtables c wait s).calls = [Call.Flush { wait := wait }] ∧
      (flushAllMemtables c wait s).rv = 0 ∧
      (flushAllMemtables c wait s).store.fail_safe_mode_ = s.fail_safe_mode_ ∧
      (flushAllMemtables c wait s).store.err = s.err) := by
  unfold flushAllMemtables
  cases h : (c.Flush { wait := wait } s.db).1.ok
  · cases hf : s.fail_safe_mode_ <;>
      simp [h, hf, enterFailSafeIfFailed, enterFailSafeMode]
  · simp [h]

/-- The contract of `flushAllMemtables` on a failing and on a succeeding engine flush. -/
theorem flushAllMemtables_contract_witness :
    ((scriptedCollaborators 5 0).Flush { wait := false } freshStore.db).1.ok = false ∧
    (flushAllMemtables (scriptedCollaborators 5 0) false freshStore).store.fail_safe_mode_ = true ∧
    (flushAllMemtables (scriptedCollaborators 5 0) false freshStore).rv = -1 ∧
    ((scriptedCollaborators 0 0).Flush { wait := true } freshStore.db).1.ok = true ∧
    (flushAllMemtables (scriptedCollaborators 0 0) true freshStore).rv = 0 := by
  have hbad := flushAllMemtables_contract (scriptedCollaborators 5 0) false freshStore
  have hgood := flushAllMemtables_contract (scriptedCollaborators 0 0) true freshStore
  have h1 : ((scriptedCollaborators 5 0).Flush { wait := false } freshStore.db).1.ok = false := by
    decide
  have h2 : ((scriptedCollaborators 0 0).Flush { wait := true } freshStore.db).1.ok = true := by
    decide
  exact ⟨h1, (hbad.2.2.1 h1).2.1, (hbad.2.2.1 h1).2.2.2, h2, (hgood.2.2.2 h2).2.1⟩

/-- C8. `sync(Durability::MEMORY)` calls `syncWAL` first. When that fails, the result is
`-1` and no flush is issued: the writer call is the only outside call. Otherwise the calls
are the writer call followed by those of `flushAllMemtables`, run on the store `syncWAL`
left, and result and store are those of `flushAllMemtables`. In particular the result is
`0` when the writer's status and the engine's flush status are both ok. -/
theorem sync_MEMORY_contract {ε : Type} (c : Collaborators ε) (s : Store ε) :
    ((syncWAL c s).rv ≠ 0 →
      (sync c Durability.MEMORY s).rv = -1 ∧
      (sync c Durability.MEMORY s).calls = [Call.writer_syncWAL]) ∧
    ((syncWAL c s).rv = 0 →
      (sync c Durability.MEMORY s).rv
        = (flushAllMemtables c c.flush_wait_default (syncWAL c s).store).rv ∧
      (sync c Durability.MEMORY s).store
        = (flushAllMemtables c c.flush_wait_default (syncWAL c s).store).store ∧
      (sync c Durability.MEMORY s).calls
        = Call.writer_syncWAL ::
            (flushAllMemtables c c.flush_wait_default (syncWAL c s).store).calls) ∧
    ((c.writer_syncWAL s).1.ok = true →
      (c.Flush { wait := c.flush_wait_default } (c.writer_syncWAL s).2.db).1.ok = true →
      (sync c Durability.MEMORY s).rv = 0) := by
  have hA : Durability.MEMORY ≤ Durability.ASYNC_WRITE := by decide
  have hM : Durability.MEMORY ≤ Durability.MEMORY := by decide
  have hcalls := (syncWAL_adds_no_escalation c s).2.2
  refine ⟨?_, ?_, ?_⟩
  · intro h
    simp [sync, hA, h, hcalls]
  · intro h
    simp [sync, hA, hM, h, hcalls]
  · intro hw hf
    have hrv : (syncWAL c s).rv = 0 := by rw [syncWAL_rv, hw]; rfl
    have hst : (syncWAL c s).store = (c.writer_syncWAL s).2 := by
      unfold syncWAL; simp [hw]
    simp only [sync, hA, hM, hrv, if_true]
    simp [hst, flushAllMemtables, hf]

/-- The contract of `sync(MEMORY)` on a failing WAL sync and on a fully succeeding run. -/
theorem sync_MEMORY_contract_witness :
    (syncWAL (scriptedCollaborators 0 7) freshStore).rv ≠ 0 ∧
    (sync (scriptedCollaborators 0 7) Durability.MEMORY freshStore).calls
      = [Call.writer_syncWAL] ∧
    (sync (scriptedCollaborators 0 0) Durability.MEMORY freshStore).rv = 0 := by
  have hbad := sync_MEMORY_contract (scriptedCollaborators 0 7) freshStore
  have hgood := sync_MEMORY_contract (scriptedCollaborators 0 0) freshStore
  have h1 : (syncWAL (scriptedCollaborators 0 7) freshStore).rv ≠ 0 := by decide
  exact ⟨h1, (hbad.1 h1).2, hgood.2.2 (by decide) (by decide)⟩

/-- C1, as the code has it. With `MEMORY < ASYNC_WRITE < SYNC_WRITE`: at every level that is
`ASYNC_WRITE` or weaker (`durability <= ASYNC_WRITE`) the first outside call of `sync` is the
writer's WAL sync; at every level that is `MEMORY` or weaker (`durability <= MEMORY`), once
that WAL sync has succeeded, the calls of `flushAllMemtables` follow, among them the engine
flush; at a level above `MEMORY` no flush is issued; at a level above `ASYNC_WRITE` nothing
is called, the store is untouched and the result is `0`. -/
theorem sync_obligations {ε : Type} (c : Collaborators ε) (d : Durability) (s : Store ε) :
    (d ≤ Durability.ASYNC_WRITE → (sync c d s).calls.head? = some Call.writer_syncWAL) ∧
    (d ≤ Durability.MEMORY → (syncWAL c s).rv = 0 →
      (sync c d s).calls
        = Call.writer_syncWAL ::
            (flushAllMemtables c c.flush_wait_default (syncWAL c s).store).calls ∧
      Call.Flush { wait := c.flush_wait_default } ∈ (sync c d s).calls) ∧
    (¬ d ≤ Durability.MEMORY → ∀ o, Call.Flush o ∉ (sync c d s).calls) ∧
    (¬ d ≤ Durability.ASYNC_WRITE →
      (sync c d s).calls = [] ∧ (sync c d s).rv = 0 ∧ (sync c d s).store = s) := by
  have hcalls := (syncWAL_adds_no_escalation c s).2.2
  have hflush : ∀ s1 : Store ε, Call.Flush { wait := c.flush_wait_default }
      ∈ (flushAllMemtables c c.flush_wait_default s1).calls := by
    intro s1
    unfold flushAllMemtables
    cases h : (c.Flush { wait := c.flush_wait_default } s1.db).1.ok <;> simp [h]
  refine ⟨?_, ?_, ?_, ?_⟩
  · intro hA
    by_cases h0 : (syncWAL c s).rv = 0
    · by_cases hM : d ≤ Durability.MEMORY <;> simp [sync, hA, hM, h0, hcalls]
    · simp [sync, hA, h0, hcalls]
  · intro hM h0
    have hA : d ≤ Durability.ASYNC_WRITE := by
      cases d
      · decide
      · exact absurd hM (by decide)
      · exact absurd hM (by decide)
    have hs : (sync c d s).calls
        = Call.writer_syncWAL ::
            (flushAllMemtables c c.flush_wait_default (syncWAL c s).store).calls := by
      simp [sync, hA, hM, h0, hcalls]
    exact ⟨hs, by rw [hs]; exact List.mem_cons_of_mem _ (hflush _)⟩
  · intro hM o
    by_cases hA : d ≤ Durability.ASYNC_WRITE
    · by_cases h0 : (syncWAL c s).rv = 0 <;> simp [sync, hA, hM, h0, hcalls]
    · simp [sync, hA, hM]
  · intro hA
    have hM : ¬ d ≤ Durability.MEMORY := by
      cases d
      · exact absurd (by decide) hA
      · exact absurd (by decide) hA
      · decide
    simp [sync, hA, hM]

/-- The obligations of `sync` at `ASYNC_WRITE` (WAL sync first) and at `MEMORY` (flush after
a successful WAL sync). -/
theorem sync_obligations_witness :
    Durability.ASYNC_WRITE ≤ Durability.ASYNC_WRITE ∧
    (sync (scriptedCollaborators 0 0) Durability.ASYNC_WRITE freshStore).calls.head?
      = some Call.writer_syncWAL ∧
    Durability.MEMORY ≤ Durability.MEMORY ∧
    Call.Flush { wait := true }
      ∈ (sync (scriptedCollaborators 0 0) Durability.MEMORY freshStore).calls :=
  ⟨by decide,
   (sync_obligations (scriptedCollaborators 0 0) Durability.ASYNC_WRITE freshStore).1
     (by decide),
   by decide,
   ((sync_obligations (scriptedCollaborators 0 0) Durability.MEMORY freshStore).2.1
     (by decide) (by decide)).2⟩

/-- C1 fails as stated. `SYNC_WRITE` is `ASYNC_WRITE` or stricter and `MEMORY` or stricter,
yet `sync(SYNC_WRITE)` calls neither the WAL sync nor the flush and returns `0`; and
`ASYNC_WRITE` is `MEMORY` or stricter, yet `sync(ASYNC_WRITE)` with a succeeding WAL sync
issues the writer call only, no flush. -/
theorem sync_stricter_levels_counterexample :
    Durability.ASYNC_WRITE ≤ Durability.SYNC_WRITE ∧
    Durability.MEMORY ≤ Durability.SYNC_WRITE ∧
    (sync (scriptedCollaborators 0 0) Durability.SYNC_WRITE freshStore).calls = [] ∧
    (sync (scriptedCollaborators 0 0) Durability.SYNC_WRITE freshStore).rv = 0 ∧
    Durability.MEMORY ≤ Durability.ASYNC_WRITE ∧
    (sync (scriptedCollaborators 0 0) Durability.ASYNC_WRITE freshStore).calls
      = [Call.writer_syncWAL] := by
  decide

/-- The writer of the spec leaves the store in fail-safe mode whenever the status it hands
back is not ok. -/
theorem RocksDBWriter.syncWAL_escalates {ε : Type} (SyncWAL : ε → Status × ε) (s : Store ε)
    (h : (RocksDBWriter.syncWAL SyncWAL s).1.ok = false) :
    (RocksDBWriter.syncWAL SyncWAL s).2.fail_safe_mode_ = true := by
  simp only [RocksDBWriter.syncWAL] at h ⊢
  cases hf : s.fail_safe_mode_ <;> simp [enterFailSafeIfFailed, enterFailSafeMode, h, hf]

/-- C9. Let the writer behave as the spec has it: whenever its WAL sync hands back a status
that is not ok, it has put the shard in fail-safe mode. Then on every store on which the
writer's WAL sync returns a status that is not ok, `syncWAL` returns `-1` with
`err = LOCAL_LOG_STORE_WRITE` and the store in fail-safe mode, and so does `sync` at every
level at which it syncs the WAL (`durability <= ASYNC_WRITE`), without issuing a flush. -/
theorem syncWAL_failure_escalated {ε : Type} (c : Collaborators ε) (s : Store ε)
    (hwriter : ∀ s0, (c.writer_syncWAL s0).1.ok = false →
      (c.writer_syncWAL s0).2.fail_safe_mode_ = true)
    (hfail : (c.writer_syncWAL s).1.ok = false) :
    ((syncWAL c s).rv = -1 ∧
      (syncWAL c s).store.err = E.LOCAL_LOG_STORE_WRITE ∧
      (syncWAL c s).store.fail_safe_mode_ = true) ∧
    (∀ d, d ≤ Durability.ASYNC_WRITE →
      (sync c d s).rv = -1 ∧
      (sync c d s).store.err = E.LOCAL_LOG_STORE_WRITE ∧
      (sync c d s).store.fail_safe_mode_ = true ∧
      (sync c d s).calls = [Call.writer_syncWAL]) := by
  have hrv : (syncWAL c s).rv = -1 := by rw [syncWAL_rv, hfail]; rfl
  have herr : (syncWAL c s).store.err = E.LOCAL_LOG_STORE_WRITE := by
    unfold syncWAL; simp [hfail]
  have hfs : (syncWAL c s).store.fail_safe_mode_ = true := by
    rw [(syncWAL_adds_no_escalation c s).1]; exact hwriter s hfail
  have hcalls := (syncWAL_adds_no_escalation c s).2.2
  refine ⟨⟨hrv, herr, hfs⟩, ?_⟩
  intro d hd
  have hne : (syncWAL c s).rv ≠ 0 := by rw [hrv]; decide
  simp [sync, hd, hne, herr, hfs, hcalls]

/-- A WAL sync failing with status code 5 behind the writer of the spec: `syncWAL` and
`sync(ASYNC_WRITE)` return `-1` and the store, fresh before, is in fail-safe mode. -/
theorem syncWAL_failure_escalated_witness :
    (failingWALCollaborators.writer_syncWAL freshStore).1.ok = false ∧
    (syncWAL failingWALCollaborators freshStore).rv = -1 ∧
    (syncWAL failingWALCollaborators freshStore).store.err = E.LOCAL_LOG_STORE_WRITE ∧
    (syncWAL failingWALCollaborators freshStore).store.fail_safe_mode_ = true ∧
    (sync failingWALCollaborators Durability.ASYNC_WRITE freshStore).rv = -1 :=
  have h := syncWAL_failure_escalated failingWALCollaborators freshStore
    (fun s0 h0 => RocksDBWriter.syncWAL_escalates (fun n => (⟨5⟩, n)) s0 h0) (by decide)
  ⟨by decide, h.1.1, h.1.2.1, h.1.2.2, (h.2 Durability.ASYNC_WRITE (by decide)).1⟩

/-! ## Theorems: `isCFEmpty` -/

/-- The comparison of slices is zero exactly on equal slices. -/
theorem Slice.compare_eq_zero_iff (a b : Slice) : Slice.compare a b = 0 ↔ a = b := by
  induction a generalizing b with
  | nil => cases b <;> simp [Slice.compare]
  | cons x xs ih =>
    cases b with
    | nil => simp [Slice.compare]
    | cons y ys =>
      simp only [Slice.compare]
      by_cases h1 : x < y
      · simp [h1]; omega
      · by_cases h2 : y < x
        · simp [h1, h2]; omega
        · have hxy : x = y := by omega
          simp [h1, h2, ih, hxy]

/-- No slice sorts below the empty slice. -/
theorem Slice.compare_nil_not_neg (a : Slice) : ¬ Slice.compare a [] < 0 := by
  cases a <;> simp [Slice.compare]

/-- Seeking to the empty slice leaves the iterator on the first row of the family, with
the status the engine reports for the seek. -/
theorem seek_nil_eq (cf : ColumnFamilyHandle) :
    (newIterator cf).Seek []
      = { rows := cf.rows, st := cf.faults.headD Status.OK, faults := cf.faults.tail } := by
  simp only [RocksDBIterator.Seek, newIterator]
  cases h : cf.rows with
  | nil => rfl
  | cons r rs => simp [List.dropWhile, Slice.compare_nil_not_neg]

/-- On a family whose iterator reports no error on `Seek` and on the following `Next`,
`isCFEmpty` is decided by the rows alone: `1` for no row and for a single row whose key is
a schema-version key, `0` otherwise. -/
theorem isCFEmpty_of_healthy (cf : ColumnFamilyHandle)
    (h0 : (cf.faults.headD Status.OK).ok = true)
    (h1 : (cf.faults.tail.headD Status.OK).ok = true) :
    isCFEmpty cf =
      match cf.rows with
      | [] => 1
      | r :: rest => if isSchemaVersionKey r.1 = true ∧ rest = [] then 1 else 0 := by
  unfold isCFEmpty isCFEmptyIterator
  rw [seek_nil_eq]
  simp only [RocksDBIterator.status, RocksDBIterator.Valid, RocksDBIterator.key,
    RocksDBIterator.Next]
  generalize cf.faults.headD Status.OK = st0 at h0 ⊢
  generalize cf.faults.tail.headD Status.OK = st1 at h1 ⊢
  cases hr : cf.rows with
  | nil => simp [h0]
  | cons r rest =>
    by_cases hk : isSchemaVersionKey r.1 = true
    · have hk' := hk
      simp only [isSchemaVersionKey, Bool.or_eq_true, decide_eq_true_eq] at hk'
      cases rest with
      | nil => simp [h0, h1, hk, Slice.compare_eq_zero_iff, hk']
      | cons r2 rest2 => simp [h0, h1, hk, Slice.compare_eq_zero_iff, hk']
    · have hk' := hk
      simp only [isSchemaVersionKey, Bool.or_eq_true, decide_eq_true_eq] at hk'
      simp [h0, hk, Slice.compare_eq_zero_iff, hk']

/-- A family whose iterator never reports an error is healthy on the two operations
`isCFEmpty` performs. -/
theorem healthy_first_two (faults : List Status) (hok : ∀ f ∈ faults, f.ok = true) :
    (faults.headD Status.OK).ok = true ∧ (faults.tail.headD Status.OK).ok = true := by
  cases faults with
  | nil => exact ⟨rfl, rfl⟩
  | cons f fs =>
    cases fs with
    | nil => exact ⟨hok f (by simp), rfl⟩
    | cons g gs => exact ⟨hok f (by simp), hok g (by simp)⟩

/-- C3. For every column family whose iterator reports no error and which holds no key, or
exactly one key that is a schema-version key: `isCFEmpty` returns `1`, and after adding a
row with any key that is not a schema-version key, wherever that key sorts, it returns
`0`. -/
theorem isCFEmpty_schema_key_only (cf : ColumnFamilyHandle)
    (hok : ∀ f ∈ cf.faults, f.ok = true)
    (hrows : cf.rows = [] ∨ ∃ k v, cf.rows = [(k, v)] ∧ isSchemaVersionKey k = true) :
    isCFEmpty cf = 1 ∧
    ∀ k v, isSchemaVersionKey k = false → isCFEmpty (cf.put k v) = 0 := by
  obtain ⟨h0, h1⟩ := healthy_first_two cf.faults hok
  constructor
  · rw [isCFEmpty_of_healthy cf h0 h1]
    rcases hrows with h | ⟨k, v, h, hk⟩
    · rw [h]
    · rw [h]; simp [hk]
  · intro k v hk
    rw [isCFEmpty_of_healthy (cf.put k v) h0 h1]
    simp only [ColumnFamilyHandle.put]
    rcases hrows with h | ⟨s, v0, h, hs⟩
    · rw [h]; simp [putRow, hk]
    · rw [h]
      simp only [putRow]
      by_cases c1 : Slice.compare k s < 0
      · simp [c1, hk]
      · by_cases c2 : Slice.compare k s = 0
        · simp [c1, c2, hk]
        · simp [c1, c2, hs]

/-- The family holding only the old schema-version key is empty for `isCFEmpty`, and stops
being so once a data row is added. -/
theorem isCFEmpty_schema_key_only_witness :
    isCFEmpty schemaOnlyFamily = 1 ∧
    isCFEmpty (schemaOnlyFamily.put [7] [9]) = 0 ∧
    isCFEmpty (schemaOnlyFamily.put (Slice.ofString "zz") [9]) = 0 :=
  have h := isCFEmpty_schema_key_only schemaOnlyFamily (by decide)
    (Or.inr ⟨OLD_SCHEMA_VERSION_KEY, [1], rfl, by decide⟩)
  ⟨h.1, h.2 [7] [9] (by decide), h.2 (Slice.ofString "zz") [9] (by decide)⟩

/-- On every family whose iterator reports no error, except a family of two or more rows
whose keys are all schema-version keys, `isCFEmpty` returns `1` exactly when the family
holds no key other than a schema-version key, and `0` otherwise. -/
theorem isCFEmpty_iff_only_schema_keys (cf : ColumnFamilyHandle)
    (hok : ∀ f ∈ cf.faults, f.ok = true)
    (hnot : ¬ (2 ≤ cf.rows.length ∧ ∀ r ∈ cf.rows, isSchemaVersionKey r.1 = true)) :
    (isCFEmpty cf = 1 ↔ ∀ r ∈ cf.rows, isSchemaVersionKey r.1 = true) ∧
    (isCFEmpty cf = 0 ↔ ¬ ∀ r ∈ cf.rows, isSchemaVersionKey r.1 = true) := by
  obtain ⟨h0, h1⟩ := healthy_first_two cf.faults hok
  rw [isCFEmpty_of_healthy cf h0 h1]
  cases hr : cf.rows with
  | nil => simp
  | cons r rest =>
    rw [hr] at hnot
    by_cases hk : isSchemaVersionKey r.1 = true
    · cases rest with
      | nil => simp [hk]
      | cons r2 rest2 =>
        have h2 : ¬ ∀ x ∈ r :: r2 :: rest2, isSchemaVersionKey x.1 = true := by
          intro hall
          exact hnot ⟨by simp, hall⟩
        have hif : (if isSchemaVersionKey r.1 = true ∧ r2 :: rest2 = [] then (1 : Int) else 0)
            = 0 := if_neg (fun h => List.cons_ne_nil _ _ h.2)
        dsimp only
        rw [hif]
        exact ⟨⟨fun h => absurd h (by decide), fun h => absurd h h2⟩,
          ⟨fun _ => h2, fun _ => rfl⟩⟩
    · simp [hk]

/-- The result `-1` of `isCFEmpty` is tied to the engine: it is returned exactly when the
engine fails the seek, or serves it, leaves the iterator on a schema-version key and then
fails the `Next`. -/
theorem isCFEmpty_error_iff (cf : ColumnFamilyHandle) :
    isCFEmpty cf = -1 ↔
      (cf.faults.headD Status.OK).ok = false ∨
      ((cf.faults.headD Status.OK).ok = true ∧
        (∃ r rest, cf.rows = r :: rest ∧ isSchemaVersionKey r.1 = true) ∧
        (cf.faults.tail.headD Status.OK).ok = false) := by
  unfold isCFEmpty isCFEmptyIterator
  rw [seek_nil_eq]
  simp only [RocksDBIterator.status, RocksDBIterator.Valid, RocksDBIterator.key,
    RocksDBIterator.Next]
  generalize cf.faults.headD Status.OK = st0
  generalize cf.faults.tail.headD Status.OK = st1
  cases h0 : st0.ok
  · simp [h0]
  · cases hr : cf.rows with
    | nil => simp [h0]
    | cons r rest =>
      by_cases hk : isSchemaVersionKey r.1 = true
      · have hk' := hk
        simp only [isSchemaVersionKey, Bool.or_eq_true, decide_eq_true_eq] at hk'
        cases h1 : st1.ok
        · simp [h0, hk, Slice.compare_eq_zero_iff, hk', h1]
        · cases rest <;> simp [h0, hk, Slice.compare_eq_zero_iff, hk', h1]
      · have hk' := hk
        simp only [isSchemaVersionKey, Bool.or_eq_true, decide_eq_true_eq] at hk'
        simp [h0, hk, Slice.compare_eq_zero_iff, hk']

/-- C4 at the family that holds the two schema-version keys and nothing else, its rows in
key order and its iterator healthy: the family holds no key other than a schema-version
key, yet `isCFEmpty` returns `0`, not `1`. The single `if` steps over `.schema_version`
and stops on `schema_version`, which is taken for content. -/
theorem isCFEmpty_both_schema_keys :
    Slice.compare NEW_SCHEMA_VERSION_KEY OLD_SCHEMA_VERSION_KEY < 0 ∧
    (∀ f ∈ bothSchemaKeysFamily.faults, f.ok = true) ∧
    (∀ r ∈ bothSchemaKeysFamily.rows, isSchemaVersionKey r.1 = true) ∧
    (isCFEmptyIterator bothSchemaKeysFamily).key = OLD_SCHEMA_VERSION_KEY ∧
    isCFEmpty bothSchemaKeysFamily = 0 := by
  decide

/-! ## Theorems: `readAllLogSnapshotBlobsImpl` -/

/-- The loop over a run of keys valid for the type, followed by nothing or by a key that is
not, with a healthy iterator and a callback that always returns 0: the callback is applied
to each key of the run, in order, its state threaded through, and the result is 0. -/
theorem blobLoop_over_run {τ σ : Type} (fmt : LogSnapshotBlobKey τ) (X : τ)
    (callback : σ → Nat → Slice → Int × σ)
    (hcb : ∀ s id b, (callback s id b).1 = 0)
    (run rest : List (Slice × Slice))
    (hrest : ∀ r, rest.head? = some r → fmt.valid X r.1 = false) :
    ∀ (st : Status) (faults : List Status) (s : σ) (acc : List BlobCall),
      st.ok = true → (∀ f ∈ faults, f.ok = true) →
      (∀ r ∈ run, fmt.valid X r.1 = true) →
      (blobLoop fmt X callback (run ++ rest) st faults s acc).rv = 0 ∧
      (blobLoop fmt X callback (run ++ rest) st faults s acc).invocations
        = acc ++ run.map (fun r => ⟨fmt.getLogID r.1, r.2, 0⟩) ∧
      (blobLoop fmt X callback (run ++ rest) st faults s acc).cbState
        = run.foldl (fun s1 r => (callback s1 (fmt.getLogID r.1) r.2).2) s := by
  induction run with
  | nil =>
    intro st faults s acc hst _ _
    cases rest with
    | nil => simp [blobLoop, hst]
    | cons r rs =>
      obtain ⟨k, v⟩ := r
      have hv := hrest (k, v) rfl
      simp only at hv
      simp [blobLoop, hst, hv]
  | cons r run ih =>
    intro st faults s acc hst hf hrun
    obtain ⟨k, v⟩ := r
    have hv : fmt.valid X k = true := hrun (k, v) (by simp)
    have hnext : (faults.headD Status.OK).ok = true := by
      cases faults with
      | nil => rfl
      | cons f fs => exact hf f (by simp)
    have htail : ∀ f ∈ faults.tail, f.ok = true := fun f hm => hf f (List.mem_of_mem_tail hm)
    have hrun' : ∀ r ∈ run, fmt.valid X r.1 = true := fun r hm => hrun r (by simp [hm])
    have := ih (faults.headD Status.OK) faults.tail (callback s (fmt.getLogID k) v).2
      (acc ++ [⟨fmt.getLogID k, v, (callback s (fmt.getLogID k) v).1⟩]) hnext htail hrun'
    simp only [List.cons_append, blobLoop, hst, hv, hcb, if_true]
    simp only [hcb] at this
    simpa using this

/-- C5. For every key format, snapshot type `X`, column family and callback (with its
state): when the iterator reports no error, the callback always returns 0, and the rows
from the seek target `(X, LOGID_INVALID)` on are a run of keys valid for `X` followed by
nothing or by a key not valid for `X`, then `readAllLogSnapshotBlobsImpl` returns 0, its
callback invocations are exactly one per key of the run, in key order, each with the key's
decoded log id and the row's value, and the callback's state afterwards is the one reached
by applying the callback to exactly those arguments in that order; the callback is not
applied to the first key that is not valid for `X` or to any row after it. -/
theorem readAllLogSnapshotBlobsImpl_yields_run {τ σ : Type} (fmt : LogSnapshotBlobKey τ)
    (X : τ) (callback : σ → Nat → Slice → Int × σ) (s0 : σ) (cf : ColumnFamilyHandle)
    (run rest : List (Slice × Slice))
    (hok : ∀ f ∈ cf.faults, f.ok = true)
    (hcb : ∀ s id b, (callback s id b).1 = 0)
    (hseek : ((newIterator cf).Seek (fmt.encode X fmt.LOGID_INVALID)).rows = run ++ rest)
    (hrun : ∀ r ∈ run, fmt.valid X r.1 = true)
    (hrest : ∀ r, rest.head? = some r → fmt.valid X r.1 = false) :
    (readAllLogSnapshotBlobsImpl fmt X callback s0 cf).rv = 0 ∧
    (readAllLogSnapshotBlobsImpl fmt X callback s0 cf).invocations
      = run.map (fun r => ⟨fmt.getLogID r.1, r.2, 0⟩) ∧
    (readAllLogSnapshotBlobsImpl fmt X callback s0 cf).cbState
      = run.foldl (fun s1 r => (callback s1 (fmt.getLogID r.1) r.2).2) s0 := by
  unfold readAllLogSnapshotBlobsImpl
  simp only [hseek]
  have hst : ((newIterator cf).Seek (fmt.encode X fmt.LOGID_INVALID)).status.ok = true := by
    simp only [RocksDBIterator.status, RocksDBIterator.Seek, newIterator]
    cases hfl : cf.faults with
    | nil => rfl
    | cons f fs => exact hok f (by simp [hfl])
  have hf : ∀ f ∈ ((newIterator cf).Seek (fmt.encode X fmt.LOGID_INVALID)).faults,
      f.ok = true := by
    intro f hm
    exact hok f (List.mem_of_mem_tail hm)
  have := blobLoop_over_run fmt X callback hcb run rest hrest _ _ s0 [] hst hf hrun
  simpa using this

/-- Reading the blobs of type 2 from a family that also holds types 1 and 3, with a
callback that records its arguments: the two blobs of type 2, in key order, reach the
callback, and nothing else does. -/
theorem readAllLogSnapshotBlobsImpl_yields_run_witness :
    (readAllLogSnapshotBlobsImpl pairKeyFormat 2 recordingCallback [] snapshotFamily).rv = 0 ∧
    (readAllLogSnapshotBlobsImpl pairKeyFormat 2 recordingCallback [] snapshotFamily).invocations
      = [⟨3, [30], 0⟩, ⟨8, [80], 0⟩] ∧
    (readAllLogSnapshotBlobsImpl pairKeyFormat 2 recordingCallback [] snapshotFamily).cbState
      = [(3, [30]), (8, [80])] :=
  readAllLogSnapshotBlobsImpl_yields_run pairKeyFormat 2 recordingCallback [] snapshotFamily
    [([2, 3], [30]), ([2, 8], [80])] [([3, 1], [10])]
    (by decide) (fun _ _ _ => rfl) (by decide) (by decide) (by decide)

/-- The statuses of the positions of an iterator whose current status is the head of the
upcoming statuses and whose upcoming statuses are their tail are the upcoming statuses. -/
theorem getD_headD_tail (l : List Status) (j : Nat) :
    (l.headD Status.OK :: l.tail).getD j Status.OK = l.getD j Status.OK := by
  cases l with
  | nil => cases j <;> simp
  | cons f fs => simp

/-- Every run of the loop, told from its inputs. With `st :: faults` the statuses of the
iterator at the successive positions, the new invocations `inv` are truthful records of
the callback applied, its state threaded through, to a prefix of the rows, each of them
valid and reached in an ok status; no invocation follows one that returned non-zero; the
final status is that of the position reached, one step per invocation that returned 0;
the result is `-1` exactly after a non-zero return or in a final status that is not ok,
else `0`; and the loop gives up without either only at the end of the rows or at a key
that is not valid. -/
theorem blobLoop_spec {τ σ : Type} (fmt : LogSnapshotBlobKey τ) (X : τ)
    (callback : σ → Nat → Slice → Int × σ) (rows : List (Slice × Slice)) :
    ∀ (st : Status) (faults : List Status) (s : σ) (acc : List BlobCall) (out : BlobRet σ),
      blobLoop fmt X callback rows st faults s acc = out →
      ∃ inv : List BlobCall,
        out.invocations = acc ++ inv ∧
        replayCallback callback s inv = some out.cbState ∧
        inv.map (fun c => (c.logid, c.blob))
          = (rows.take inv.length).map (fun r => (fmt.getLogID r.1, r.2)) ∧
        (∀ r ∈ rows.take inv.length, fmt.valid X r.1 = true) ∧
        (∀ i, i < inv.length → ((st :: faults).getD i Status.OK).ok = true) ∧
        out.final
          = (st :: faults).getD (inv.filter (fun c => decide (c.rv = 0))).length Status.OK ∧
        (∀ pre c post, inv = pre ++ c :: post → c.rv ≠ 0 → post = []) ∧
        (out.rv = -1 ↔ (∃ c ∈ inv, c.rv ≠ 0) ∨ out.final.ok = false) ∧
        (out.rv = 0 ∨ out.rv = -1) ∧
        ((∀ c ∈ inv, c.rv = 0) → out.final.ok = true →
          rows.drop inv.length = [] ∨
          ∃ r, (rows.drop inv.length).head? = some r ∧ fmt.valid X r.1 = false) := by
  induction rows with
  | nil =>
    intro st faults s acc out hout
    subst hout
    refine ⟨[], ?_⟩
    cases h : st.ok <;> simp [blobLoop, replayCallback, h]
  | cons r rows ih =>
    intro st faults s acc out hout
    obtain ⟨k, v⟩ := r
    cases hst : st.ok
    · subst hout
      exact ⟨[], by simp [blobLoop, replayCallback, hst]⟩
    · cases hv : fmt.valid X k
      · subst hout
        exact ⟨[], by simp [blobLoop, replayCallback, hst, hv]⟩
      · by_cases hr : (callback s (fmt.getLogID k) v).1 = 0
        · have heq : blobLoop fmt X callback ((k, v) :: rows) st faults s acc
              = blobLoop fmt X callback rows (faults.headD Status.OK) faults.tail
                  (callback s (fmt.getLogID k) v).2
                  (acc ++ [⟨fmt.getLogID k, v, (callback s (fmt.getLogID k) v).1⟩]) := by
            simp [blobLoop, hst, hv, hr]
          rw [heq] at hout
          obtain ⟨inv, h1, h2, h3, h4, h5, h6, h7, h8, h9, h10⟩ := ih _ _ _ _ _ hout
          refine ⟨⟨fmt.getLogID k, v, (callback s (fmt.getLogID k) v).1⟩ :: inv,
            ?_, ?_, ?_, ?_, ?_, ?_, ?_, ?_, h9, ?_⟩
          · rw [h1]; simp
          · simp [replayCallback, h2]
          · simp [h3]
          · intro r hm
            simp only [List.length_cons, List.take_succ_cons, List.mem_cons] at hm
            rcases hm with hm | hm
            · rw [hm]; exact hv
            · exact h4 r hm
          · intro i hi
            cases i with
            | zero => simpa using hst
            | succ j =>
              have := h5 j (by simpa using hi)
              rw [getD_headD_tail] at this
              simpa using this
          · rw [h6, getD_headD_tail]
            simp [hr]
          · intro pre c post hdec hne
            cases pre with
            | nil =>
              simp only [List.nil_append, List.cons.injEq] at hdec
              rw [← hdec.1] at hne
              exact absurd hr hne
            | cons p pre' =>
              simp only [List.cons_append, List.cons.injEq] at hdec
              exact h7 pre' c post hdec.2 hne
          · rw [h8]
            simp [hr]
          · intro hall hfin
            have := h10 (fun c hc => hall c (by simp [hc])) hfin
            simpa using this
        · subst hout
          refine ⟨[⟨fmt.getLogID k, v, (callback s (fmt.getLogID k) v).1⟩], ?_⟩
          refine ⟨by simp [blobLoop, hst, hv, hr], by simp [blobLoop, replayCallback, hst, hv, hr],
            by simp, by simp [hv], by simp [hst], by simp [blobLoop, hst, hv, hr], ?_,
            by simp [blobLoop, hst, hv, hr], by simp [blobLoop, hst, hv, hr], ?_⟩
          · intro pre c post hdec _
            have hl := congrArg List.length hdec
            simp only [List.length_cons, List.length_nil, List.length_append] at hl
            exact List.length_eq_zero.mp (by omega)
          · intro hall
            exact absurd
              (hall ⟨fmt.getLogID k, v, (callback s (fmt.getLogID k) v).1⟩ (by simp)) hr

/-- C6. For every key format, snapshot type, callback (with its state) and column family,
let `out` be what `readAllLogSnapshotBlobsImpl` leaves behind. Its result is `-1` exactly when
some callback invocation returned non-zero or the iterator's status at the return is not
ok, and `0` otherwise. That status is the one the engine reported for the iterator's last
positioning: the seek, then one `Next` per invocation that returned 0. An invocation that
returned non-zero is the last invocation of the call. The invocations are truthful: they
are the callback applied, its state threaded through, to the first rows from the seek
target on, in order, each with a key valid for the type and reached in an ok status. A
failed seek gives `-1` with no invocation. And without a non-zero return or an error the
call stops only at the end of the rows or at a key that is not valid for the type. -/
theorem readAllLogSnapshotBlobsImpl_result {τ σ : Type} (fmt : LogSnapshotBlobKey τ)
    (X : τ) (callback : σ → Nat → Slice → Int × σ) (s0 : σ) (cf : ColumnFamilyHandle)
    (out : BlobRet σ) (hout : readAllLogSnapshotBlobsImpl fmt X callback s0 cf = out) :
    (out.rv = -1 ↔ (∃ c ∈ out.invocations, c.rv ≠ 0) ∨ out.final.ok = false) ∧
    (out.rv = 0 ↔ ¬ ((∃ c ∈ out.invocations, c.rv ≠ 0) ∨ out.final.ok = false)) ∧
    out.final
      = cf.faults.getD (out.invocations.filter (fun c => decide (c.rv = 0))).length
          Status.OK ∧
    (∀ pre c post, out.invocations = pre ++ c :: post → c.rv ≠ 0 → post = []) ∧
    replayCallback callback s0 out.invocations = some out.cbState ∧
    out.invocations.map (fun c => (c.logid, c.blob))
      = ((((newIterator cf).Seek (fmt.encode X fmt.LOGID_INVALID)).rows).take
          out.invocations.length).map (fun r => (fmt.getLogID r.1, r.2)) ∧
    (∀ r ∈ (((newIterator cf).Seek (fmt.encode X fmt.LOGID_INVALID)).rows).take
        out.invocations.length, fmt.valid X r.1 = true) ∧
    (∀ i, i < out.invocations.length → (cf.faults.getD i Status.OK).ok = true) ∧
    ((cf.faults.getD 0 Status.OK).ok = false → out.rv = -1 ∧ out.invocations = []) ∧
    ((∀ c ∈ out.invocations, c.rv = 0) → out.final.ok = true →
      (((newIterator cf).Seek (fmt.encode X fmt.LOGID_INVALID)).rows).drop
          out.invocations.length = [] ∨
      ∃ r, ((((newIterator cf).Seek (fmt.encode X fmt.LOGID_INVALID)).rows).drop
          out.invocations.length).head? = some r ∧ fmt.valid X r.1 = false) := by
  unfold readAllLogSnapshotBlobsImpl at hout
  simp only at hout
  obtain ⟨inv, h1, h2, h3, h4, h5, h6, h7, h8, h9, h10⟩ :=
    blobLoop_spec fmt X callback _ _ _ _ _ _ hout
  simp only [List.nil_append] at h1
  have hst : ∀ j, ((((newIterator cf).Seek (fmt.encode X fmt.LOGID_INVALID)).status ::
      ((newIterator cf).Seek (fmt.encode X fmt.LOGID_INVALID)).faults).getD j Status.OK)
      = cf.faults.getD j Status.OK := fun j => getD_headD_tail cf.faults j
  rw [hst] at h6
  rw [← h1] at h2 h3 h4 h5 h6 h7 h8 h10
  have h5' : ∀ i, i < out.invocations.length → (cf.faults.getD i Status.OK).ok = true := by
    intro i hi
    have := h5 i hi
    rwa [hst] at this
  refine ⟨h8, ?_, h6, h7, h2, h3, h4, h5', ?_, h10⟩
  · rw [← h8]
    rcases h9 with h9 | h9 <;> simp [h9]
  · intro hbad
    have hlen : out.invocations = [] := by
      cases hinv : out.invocations with
      | nil => rfl
      | cons c cs =>
        have := h5' 0 (by simp [hinv])
        rw [hbad] at this
        exact absurd this (by simp)
    refine ⟨h8.mpr (Or.inr ?_), hlen⟩
    rw [h6, hlen]
    simpa using hbad

/-- Three runs over the snapshot family ending in `-1`: the callback gives up at its second
invocation, which is then the last one; the engine fails the seek, and the callback is
never invoked; the engine fails the first `Next`, after one invocation. -/
theorem readAllLogSnapshotBlobsImpl_result_witness :
    ((readAllLogSnapshotBlobsImpl pairKeyFormat 2 abortingCallback 0 snapshotFamily).invocations
        = [⟨3, [30], 0⟩, ⟨8, [80], 1⟩] ∧
      (readAllLogSnapshotBlobsImpl pairKeyFormat 2 abortingCallback 0 snapshotFamily).rv = -1) ∧
    ((readAllLogSnapshotBlobsImpl pairKeyFormat 2 recordingCallback []
          failingSeekSnapshotFamily).rv = -1 ∧
      (readAllLogSnapshotBlobsImpl pairKeyFormat 2 recordingCallback []
          failingSeekSnapshotFamily).invocations = []) ∧
    ((readAllLogSnapshotBlobsImpl pairKeyFormat 2 recordingCallback []
          failingNextFamily).invocations = [⟨3, [30], 0⟩] ∧
      (readAllLogSnapshotBlobsImpl pairKeyFormat 2 recordingCallback []
          failingNextFamily).rv = -1) :=
  ⟨⟨by decide,
    (readAllLogSnapshotBlobsImpl_result pairKeyFormat 2 abortingCallback 0 snapshotFamily
      _ rfl).1.mpr (Or.inl ⟨⟨8, [80], 1⟩, by decide, by decide⟩)⟩,
   (readAllLogSnapshotBlobsImpl_result pairKeyFormat 2 recordingCallback []
      failingSeekSnapshotFamily _ rfl).2.2.2.2.2.2.2.2.1 (by decide),
   ⟨by decide,
    (readAllLogSnapshotBlobsImpl_result pairKeyFormat 2 recordingCallback []
      failingNextFamily _ rfl).1.mpr (Or.inr (by decide))⟩⟩

/-! ## Theorems: stalling of low-priority writes -/

/-- The last answer among events is the last answer of the later part when it has one, and
that of the earlier part otherwise. -/
theorem lastAnswer_append (l r : List StallEvent) :
    lastAnswer (l ++ r) =
      match lastAnswer r with
      | some b => some b
      | none => lastAnswer l := by
  induction l with
  | nil => cases h : lastAnswer r <;> simp [lastAnswer, h]
  | cons e l ih =>
    show (match lastAnswer (l ++ r) with
      | some b => some b
      | none => match e with
        | StallEvent.shouldStall b => some b
        | _ => none) = _
    rw [ih]
    cases h : lastAnswer r <;> simp [lastAnswer]

/-- The last clock reading among events is the last reading of the later part when it has
one, and that of the earlier part otherwise. -/
theorem lastNow_append (l r : List StallEvent) :
    lastNow (l ++ r) =
      match lastNow r with
      | some t => some t
      | none => lastNow l := by
  induction l with
  | nil => cases h : lastNow r <;> simp [lastNow, h]
  | cons e l ih =>
    show (match lastNow (l ++ r) with
      | some t => some t
      | none => match e with
        | StallEvent.now t => some t
        | _ => none) = _
    rw [ih]
    cases h : lastNow r <;> simp [lastNow]

/-- A tick count in the 64-bit range is its own 64-bit value. -/
theorem wrap64_of_inRange (x : Int) (h1 : -(2 ^ 63) ≤ x) (h2 : x < 2 ^ 63) : wrap64 x = x := by
  unfold wrap64
  have h3 : (x + 2 ^ 63) % 2 ^ 64 = x + 2 ^ 63 :=
    Int.emod_eq_of_lt (by omega) (by omega)
  omega

/-- With no other thread storing, an access finds the deadline as it was left. -/
theorem arrive_of_single (env : StallEnv) (a : Nat) (d : Int) (h : env.otherStores a = none) :
    env.arrive a d = (d, []) := by
  simp [StallEnv.arrive, h]

/-- With the clock below the deadline at the first reading and no other store before the
first load, `stallLowPriWrite` returns at once, for any fuel: one clock reading, deadline
unchanged. -/
theorem stallLowPriWrite_fast_path (env : StallEnv) (ttl : Int) (fuel : Nat) (d : Int)
    (h0 : env.otherStores 0 = none) (h : env.now 0 < d) :
    stallLowPriWrite env ttl fuel d = some (d, [StallEvent.now (env.now 0)]) := by
  simp [stallLowPriWrite, arrive_of_single env 0 d h0, h]

/-- The two ways out of the loop of `stallLowPriWrite` when no other thread stores: a
reading of the clock below the deadline at the loop condition, the deadline unchanged; or
an answer false, followed by one more clock reading and the store of that reading plus
`stall_cache_ttl_`. -/
theorem stallLoop_exit (env : StallEnv) (ttl : Int) (hsingle : ∀ a, env.otherStores a = none) :
    ∀ (fuel c q a : Nat) (stats d : Int) (ev : List StallEvent) (d' : Int)
      (ev' : List StallEvent),
      stallLoop env ttl fuel c q a stats d ev = some (d', ev') →
      (∃ pre i, ev' = ev ++ pre ++ [StallEvent.now (env.now i)] ∧ env.now i < d ∧ d' = d) ∨
      (∃ pre i q1, ev' = ev ++ pre ++
          [StallEvent.now (env.now i), StallEvent.shouldStall false,
           StallEvent.now (env.now (i + 1)),
           StallEvent.store (wrap64 (env.now (i + 1) + ttl))] ∧
        d' = wrap64 (env.now (i + 1) + ttl) ∧ ¬ env.now i < d ∧
        env.shouldStallLowPriWrites q1 = false) := by
  intro fuel
  induction fuel with
  | zero => intro c q a stats d ev d' ev' h; simp [stallLoop] at h
  | succ fuel ih =>
    intro c q a stats d ev d' ev' h
    simp only [stallLoop, arrive_of_single env _ _ (hsingle _), List.append_nil] at h
    by_cases h1 : env.now c < d
    · simp only [h1, if_true, Option.some.injEq, Prod.mk.injEq] at h
      exact Or.inl ⟨[], c, by simp [← h.2], h1, h.1.symm⟩
    · simp only [h1, if_false] at h
      cases hq : env.shouldStallLowPriWrites q
      · simp only [hq, Bool.not_false, if_true, Option.some.injEq, Prod.mk.injEq] at h
        exact Or.inr ⟨[], c, q, by simp [← h.2], h.1.symm, h1, hq⟩
      · simp only [hq, Bool.not_true, Bool.false_eq_true, if_false] at h
        rcases ih _ _ _ _ _ _ _ _ h with ⟨pre, i, he, hlt, hd⟩ | ⟨pre, i, q1, he, hd, hnl, hq1⟩
        · exact Or.inl ⟨[StallEvent.now (env.now c), StallEvent.shouldStall true,
              StallEvent.now (env.now (c + 1))]
            ++ (if env.now (c + 1) < d then [] else [StallEvent.wait_for ttl])
            ++ [StallEvent.now (env.now (c + 2)),
                StallEvent.stat_add (microseconds_count (wrap64 (env.now (c + 2) - stats)))]
            ++ pre,
            i, by rw [he]; simp, hlt, hd⟩
        · exact Or.inr ⟨[StallEvent.now (env.now c), StallEvent.shouldStall true,
              StallEvent.now (env.now (c + 1))]
            ++ (if env.now (c + 1) < d then [] else [StallEvent.wait_for ttl])
            ++ [StallEvent.now (env.now (c + 2)),
                StallEvent.stat_add (microseconds_count (wrap64 (env.now (c + 2) - stats)))]
            ++ pre,
            i, q1, by rw [he]; simp, hd, hnl, hq1⟩

/-- With no other thread storing and the clock never below the deadline, the loop is still
stalling after `fuel` iterations when the answers to its first `fuel` queries are all
true. -/
theorem stallLoop_blocked (env : StallEnv) (ttl d : Int)
    (hsingle : ∀ a, env.otherStores a = none) (hpast : ∀ i, ¬ env.now i < d) :
    ∀ (fuel c q a : Nat) (stats : Int) (ev : List StallEvent),
      (∀ k, k < fuel → env.shouldStallLowPriWrites (q + k) = true) →
      stallLoop env ttl fuel c q a stats d ev = none := by
  intro fuel
  induction fuel with
  | zero => intro c q a stats ev _; rfl
  | succ fuel ih =>
    intro c q a stats ev hans
    have hq : env.shouldStallLowPriWrites q = true := by simpa using hans 0 (by omega)
    simp only [stallLoop, arrive_of_single env _ _ (hsingle _), hpast c, hq, if_false,
      Bool.not_true, Bool.false_eq_true]
    exact ih _ _ _ _ _ (fun k hk => by
      have := hans (k + 1) (by omega)
      rwa [show q + (k + 1) = q + 1 + k by omega] at this)

/-- With no other thread storing and the clock never below the deadline, when the answers
to the first `n` queries are true and the next one is false, the loop ends in its
iteration number `n + 1`: it stores the clock reading made after that answer plus
`stall_cache_ttl_`. -/
theorem stallLoop_first_false (env : StallEnv) (ttl d : Int)
    (hsingle : ∀ a, env.otherStores a = none) (hpast : ∀ i, ¬ env.now i < d) :
    ∀ (n c q a : Nat) (stats : Int) (ev : List StallEvent),
      (∀ k, k < n → env.shouldStallLowPriWrites (q + k) = true) →
      env.shouldStallLowPriWrites (q + n) = false →
      ∃ pre, stallLoop env ttl (n + 1) c q a stats d ev
        = some (wrap64 (env.now (c + 3 * n + 1) + ttl),
            ev ++ pre ++ [StallEvent.shouldStall false,
              StallEvent.now (env.now (c + 3 * n + 1)),
              StallEvent.store (wrap64 (env.now (c + 3 * n + 1) + ttl))]) := by
  intro n
  induction n with
  | zero =>
    intro c q a stats ev _ hf
    simp only [Nat.add_zero] at hf
    refine ⟨[StallEvent.now (env.now c)], ?_⟩
    simp [stallLoop, arrive_of_single env _ _ (hsingle _), hpast c, hf]
  | succ n ih =>
    intro c q a stats ev hans hf
    have hq : env.shouldStallLowPriWrites q = true := by simpa using hans 0 (by omega)
    obtain ⟨pre, hpre⟩ := ih (c + 3) (q + 1) (a + 2) (env.now (c + 2))
      (ev ++ [StallEvent.now (env.now c)] ++
        [StallEvent.shouldStall true, StallEvent.now (env.now (c + 1))] ++
        (if env.now (c + 1) < d then [] else [StallEvent.wait_for ttl]) ++
        [StallEvent.now (env.now (c + 2)),
         StallEvent.stat_add (microseconds_count (wrap64 (env.now (c + 2) - stats)))])
      (fun k hk => by
        have := hans (k + 1) (by omega)
        rwa [show q + (k + 1) = q + 1 + k by omega] at this)
      (by rwa [show q + (n + 1) = q + 1 + n by omega] at hf)
    refine ⟨[StallEvent.now (env.now c)] ++
        [StallEvent.shouldStall true, StallEvent.now (env.now (c + 1))] ++
        (if env.now (c + 1) < d then [] else [StallEvent.wait_for ttl]) ++
        [StallEvent.now (env.now (c + 2)),
         StallEvent.stat_add (microseconds_count (wrap64 (env.now (c + 2) - stats)))] ++ pre, ?_⟩
    rw [stallLoop]
    simp only [arrive_of_single env _ _ (hsingle _), hpast c, hq, if_false,
      Bool.not_true, Bool.false_eq_true, List.append_nil]
    rw [show c + 3 * (n + 1) + 1 = c + 3 + 3 * n + 1 by omega]
    rw [hpre]
    simp only [List.append_assoc]

/-- C10. One thread runs `stallLowPriWrite`, no other thread storing to the deadline `d`.
(1) If the first clock reading is below the deadline, the call returns, whatever the fuel,
and its only event is that reading: no query, no wait, deadline unchanged. (2) Otherwise
every return ends either with a clock reading below the unchanged deadline and the final
broadcast, or with an answer false of `shouldStallLowPriWrites`, one more clock reading
`t`, the store of the 64-bit sum `t + stall_cache_ttl_` and the final broadcast, in which
case that sum is the new deadline and no wait follows that answer. (3) With a
non-decreasing clock the call has not returned as long as every answer was true, and when
the answers before query `n` are true and answer `n` is false it returns in iteration
`n + 1`, the new deadline being the reading made after that answer plus
`stall_cache_ttl_`. (4) It is never the case at a return that the last answer was true and
the last clock reading is at or past the deadline. (5) The 64-bit sum is the mathematical
sum whenever that is representable. -/
theorem stallLowPriWrite_contract (env : StallEnv) (ttl d : Int)
    (hsingle : ∀ a, env.otherStores a = none) :
    (env.now 0 < d →
      ∀ fuel, stallLowPriWrite env ttl fuel d = some (d, [StallEvent.now (env.now 0)])) ∧
    (¬ env.now 0 < d → ∀ fuel d' ev, stallLowPriWrite env ttl fuel d = some (d', ev) →
      (∃ pre i, ev = pre ++ [StallEvent.now (env.now i), StallEvent.notify_all] ∧
        env.now i < d ∧ d' = d) ∨
      (∃ pre i q, ev = pre ++
          [StallEvent.shouldStall false, StallEvent.now (env.now i),
           StallEvent.store (wrap64 (env.now i + ttl)), StallEvent.notify_all] ∧
        d' = wrap64 (env.now i + ttl) ∧ env.shouldStallLowPriWrites q = false)) ∧
    (¬ env.now 0 < d → (∀ i j, i ≤ j → env.now i ≤ env.now j) →
      (∀ fuel, (∀ q, q < fuel → env.shouldStallLowPriWrites q = true) →
        stallLowPriWrite env ttl fuel d = none) ∧
      (∀ n, (∀ q, q < n → env.shouldStallLowPriWrites q = true) →
        env.shouldStallLowPriWrites n = false →
        ∃ pre, stallLowPriWrite env ttl (n + 1) d
          = some (wrap64 (env.now (3 * n + 3) + ttl),
              pre ++ [StallEvent.shouldStall false, StallEvent.now (env.now (3 * n + 3)),
                StallEvent.store (wrap64 (env.now (3 * n + 3) + ttl)),
                StallEvent.notify_all]))) ∧
    (∀ fuel d' ev, stallLowPriWrite env ttl fuel d = some (d', ev) →
      ¬ (lastAnswer ev = some true ∧ ∃ t, lastNow ev = some t ∧ d' ≤ t)) ∧
    (∀ x : Int, -(2 ^ 63) ≤ x → x < 2 ^ 63 → wrap64 x = x) := by
  have hslow : ¬ env.now 0 < d → ∀ fuel d' ev,
      stallLowPriWrite env ttl fuel d = some (d', ev) →
      (∃ pre i, ev = pre ++ [StallEvent.now (env.now i), StallEvent.notify_all] ∧
        env.now i < d ∧ d' = d) ∨
      (∃ pre i q, ev = pre ++
          [StallEvent.shouldStall false, StallEvent.now (env.now i),
           StallEvent.store (wrap64 (env.now i + ttl)), StallEvent.notify_all] ∧
        d' = wrap64 (env.now i + ttl) ∧ env.shouldStallLowPriWrites q = false) := by
    intro h0 fuel d' ev h
    simp only [stallLowPriWrite, arrive_of_single env _ _ (hsingle _), h0, if_false,
      List.append_nil] at h
    cases hs : stallLoop env ttl fuel 2 0 1 (env.now 1) d
        ([StallEvent.now (env.now 0)] ++ [StallEvent.now (env.now 1)]) with
    | none => rw [hs] at h; simp at h
    | some r =>
      obtain ⟨d1, ev1⟩ := r
      rw [hs] at h
      simp only [Option.some.injEq, Prod.mk.injEq] at h
      obtain ⟨hd, hev⟩ := h
      rcases stallLoop_exit env ttl hsingle _ _ _ _ _ _ _ _ _ hs with
        ⟨pre, i, he, hlt, hd1⟩ | ⟨pre, i, q1, he, hd1, -, hq1⟩
      · refine Or.inl ⟨[StallEvent.now (env.now 0), StallEvent.now (env.now 1)] ++ pre, i,
          ?_, hlt, by rw [← hd, hd1]⟩
        rw [← hev, he]; simp
      · refine Or.inr ⟨[StallEvent.now (env.now 0), StallEvent.now (env.now 1)] ++ pre
            ++ [StallEvent.now (env.now i)], i + 1, q1, ?_, by rw [← hd, hd1], hq1⟩
        rw [← hev, he]; simp
  refine ⟨fun h0 fuel => stallLowPriWrite_fast_path env ttl fuel d (hsingle 0) h0, hslow,
    ?_, ?_, wrap64_of_inRange⟩
  · intro h0 hmono
    have hpast : ∀ i, ¬ env.now i < d := fun i hlt =>
      h0 (lt_of_le_of_lt (hmono 0 i (Nat.zero_le i)) hlt)
    constructor
    · intro fuel hans
      simp only [stallLowPriWrite, arrive_of_single env _ _ (hsingle _), h0, if_false]
      rw [stallLoop_blocked env ttl d hsingle hpast fuel 2 0 1 _ _
        (fun k hk => by simpa using hans k hk)]
    · intro n hans hf
      obtain ⟨pre, hpre⟩ := stallLoop_first_false env ttl d hsingle hpast n 2 0 1 (env.now 1)
        ([StallEvent.now (env.now 0)] ++ [] ++ [StallEvent.now (env.now 1)])
        (fun k hk => by simpa using hans k hk) (by simpa using hf)
      refine ⟨[StallEvent.now (env.now 0), StallEvent.now (env.now 1)] ++ pre, ?_⟩
      simp only [stallLowPriWrite, arrive_of_single env _ _ (hsingle _), h0, if_false]
      rw [hpre]
      simp only [show 2 + 3 * n + 1 = 3 * n + 3 by omega]
      simp
  · intro fuel d' ev h
    by_cases h0 : env.now 0 < d
    · rw [stallLowPriWrite_fast_path env ttl fuel d (hsingle 0) h0] at h
      simp only [Option.some.injEq, Prod.mk.injEq] at h
      rw [← h.2]
      simp [lastAnswer]
    · rcases hslow h0 fuel d' ev h with ⟨pre, i, he, hlt, hd⟩ | ⟨pre, i, q, he, hd, -⟩
      · rintro ⟨-, t, ht, hle⟩
        rw [he, lastNow_append] at ht
        simp only [lastNow, Option.some.injEq] at ht
        omega
      · rintro ⟨ha, -⟩
        rw [he, lastAnswer_append] at ha
        simp [lastAnswer] at ha

/-- Runs of one thread with the clock at 10, 1510, 3010, ... ticks and the answers true,
then false. With the deadline at 50 the call returns at once. With the deadline at 5 it has
not returned after one iteration, and returns in the second with the deadline at
9010 + 7, after one wait and 4 microseconds of stall recorded. -/
theorem stallLowPriWrite_contract_witness :
    stallLowPriWrite stallOnceEnv 7 0 50 = some (50, [StallEvent.now 10]) ∧
    stallLowPriWrite stallOnceEnv 7 1 5 = none ∧
    stallLowPriWrite stallOnceEnv 7 2 5
      = some (9017, [StallEvent.now 10, StallEvent.now 1510, StallEvent.now 3010,
          StallEvent.shouldStall true, StallEvent.now 4510, StallEvent.wait_for 7,
          StallEvent.now 6010, StallEvent.stat_add 4, StallEvent.now 7510,
          StallEvent.shouldStall false, StallEvent.now 9010, StallEvent.store 9017,
          StallEvent.notify_all]) :=
  ⟨(stallLowPriWrite_contract stallOnceEnv 7 50 (fun _ => rfl)).1 (by decide) 0,
   ((stallLowPriWrite_contract stallOnceEnv 7 5 (fun _ => rfl)).2.2.1 (by decide)
      (fun i j h => by
        show 1500 * (i : Int) + 10 ≤ 1500 * (j : Int) + 10
        have : (i : Int) ≤ (j : Int) := by exact_mod_cast h
        omega)).1 1 (by decide),
   by decide⟩

/-- In a series of `stallLowPriWrite` calls made one after the other, with no store of
another thread reaching any of them, after `adviseUnstallingLowPriWrites(true)`: every call
whose first clock reading is below the maximum returns, whatever its fuel, with that clock
reading as its only event, and the deadline is still the maximum after the series.
`adviseUnstallingLowPriWrites(false)` only broadcasts. -/
theorem adviseUnstallingLowPriWrites_sequential :
    (∀ d, adviseUnstallingLowPriWrites true d
        = (duration_max, [StallEvent.store duration_max, StallEvent.notify_all])) ∧
    (∀ d, adviseUnstallingLowPriWrites false d = (d, [StallEvent.notify_all])) ∧
    (∀ (calls : List (StallEnv × Int × Nat)) (d : Int),
      (∀ c ∈ calls, c.1.otherStores 0 = none ∧ c.1.now 0 < duration_max) →
      stallCalls calls (adviseUnstallingLowPriWrites true d).1
        = some (duration_max, calls.map (fun c => [StallEvent.now (c.1.now 0)]))) := by
  refine ⟨fun _ => rfl, fun _ => rfl, ?_⟩
  intro calls d
  show (∀ c ∈ calls, c.1.otherStores 0 = none ∧ c.1.now 0 < duration_max) →
    stallCalls calls duration_max
      = some (duration_max, calls.map (fun c => [StallEvent.now (c.1.now 0)]))
  induction calls with
  | nil => intro _; rfl
  | cons c more ih =>
    intro hc
    obtain ⟨env, ttl, fuel⟩ := c
    have h1 := hc (env, ttl, fuel) (by simp)
    have h2 := ih (fun c hm => hc c (by simp [hm]))
    simp only [stallCalls, stallLowPriWrite_fast_path env ttl fuel duration_max h1.1 h1.2, h2,
      List.map_cons]

/-- C7 with a call in flight. A thread is in `stallLowPriWrite` (deadline 0, clock at 0, 1,
2, 3, `stall_cache_ttl_` 5): it has left the fast path, got the answer false and read the
clock (3) when another thread runs `adviseUnstallingLowPriWrites(true)`, which stores the
maximum; the first thread then stores 3 + 5 over it and returns. The deadline is 8, not
the maximum, and a later call, with the clock at 10 ticks, below the maximum, leaves the
fast path, consults `shouldStallLowPriWrites`, waits on the condition variable and changes
the deadline. -/
theorem adviseUnstallingLowPriWrites_store_overwritten :
    (adviseUnstallingLowPriWrites true 0).1 = duration_max ∧
    racingEnv.otherStores 2 = some duration_max ∧
    stallLowPriWrite racingEnv 5 1 0
      = some (8, [StallEvent.now 0, StallEvent.now 1, StallEvent.now 2,
          StallEvent.shouldStall false, StallEvent.now 3,
          StallEvent.other_store duration_max, StallEvent.store 8,
          StallEvent.notify_all]) ∧
    stallOnceEnv.now 0 < duration_max ∧
    stallLowPriWrite stallOnceEnv 7 2 8
      = some (9017, [StallEvent.now 10, StallEvent.now 1510, StallEvent.now 3010,
          StallEvent.shouldStall true, StallEvent.now 4510, StallEvent.wait_for 7,
          StallEvent.now 6010, StallEvent.stat_add 4, StallEvent.now 7510,
          StallEvent.shouldStall false, StallEvent.now 9010, StallEvent.store 9017,
          StallEvent.notify_all]) := by
  decide

end RocksDBLogStoreBase
